import Mathlib

/-!
Verification of the LLM-Token-Analyzer sweep engine
(`src/token_sweeper.py`, the consolidated engine; `src/harvest_tokenizer.py`
is a superseded draft).  The embedding below follows the Python source:
pure data is translated to Lean structures, the retry/sweep control flow to
total recursive functions, and the filesystem effects of the flush/load
protocol to an explicit disk-state machine.
-/

/-- Configuration constant `RETRY_ATTEMPTS = 3` (token_sweeper.py line 20). -/
def RETRY_ATTEMPTS : Nat := 3

/-- Configuration constant `RETRY_DELAY = 2` (token_sweeper.py line 21). -/
def RETRY_DELAY : Nat := 2

/-- Configuration constant `SAVE_INTERVAL = 100` (token_sweeper.py line 18). -/
def SAVE_INTERVAL : Nat := 100

/-- UTF-8 encoding of one code point, as Python's `str.encode("utf-8")`
produces for each character (token_sweeper.py line 137). -/
def utf8Char (c : Char) : List Nat :=
  let n := c.toNat
  if n < 0x80 then [n]
  else if n < 0x800 then [0xC0 + n / 0x40, 0x80 + n % 0x40]
  else if n < 0x10000 then
    [0xE0 + n / 0x1000, 0x80 + (n / 0x40) % 0x40, 0x80 + n % 0x40]
  else
    [0xF0 + n / 0x40000, 0x80 + (n / 0x1000) % 0x40,
     0x80 + (n / 0x40) % 0x40, 0x80 + n % 0x40]

/-- `text.encode("utf-8")` as a list of byte values. -/
def utf8Bytes (s : String) : List Nat :=
  (s.data.map utf8Char).flatten

/-- One entry of the token index: the JSON object
`{"character": token, "bytes": list(token_bytes)}` stored at
token_sweeper.py lines 138-141. -/
structure TokenRecord where
  character : String
  bytes : List Nat
deriving DecidableEq, Repr

/-- The record built from a decoded token text: `token_bytes = token.encode("utf-8")`
then `{"character": token, "bytes": list(token_bytes)}`. -/
def mkRecord (t : String) : TokenRecord :=
  { character := t, bytes := utf8Bytes t }

/-- The in-memory `token_index` dict: insertion-ordered association list from
token ID to record (Python dict keys are `str(token_id)`; engine-produced
keys are canonical decimals, modelled as `Nat`). -/
abbrev TokenIndex := List (Nat × TokenRecord)

/-- Python `dict` membership/lookup `self.token_index[str(token_id)]`. -/
def findRecord : TokenIndex → Nat → Option TokenRecord
  | [], _ => none
  | (k, v) :: rest, i => if k = i then some v else findRecord rest i

/-- Python `dict` assignment `self.token_index[str(token_id)] = rec`:
updates in place if the key exists, else appends (insertion order). -/
def insertRecord : TokenIndex → Nat → TokenRecord → TokenIndex
  | [], i, r => [(i, r)]
  | (k, v) :: rest, i, r =>
    if k = i then (k, r) :: rest else (k, v) :: insertRecord rest i r

/-- Key order used by `sorted(self.token_index, key=int)`
(token_sweeper.py line 185). -/
def keyLE (p q : Nat × TokenRecord) : Prop := p.1 ≤ q.1

instance : DecidableRel keyLE := fun p q => Nat.decLe p.1 q.1

instance : IsTotal (Nat × TokenRecord) keyLE :=
  ⟨fun p q => Nat.le_total p.1 q.1⟩

instance : IsTrans (Nat × TokenRecord) keyLE :=
  ⟨fun _ _ _ h h' => Nat.le_trans h h'⟩

/-- The document `_save_mappings` serializes: the token index sorted by
numeric key, `{k: self.token_index[k] for k in sorted(self.token_index, key=int)}`
(token_sweeper.py line 185).  Python's sort is stable; on the engine's
duplicate-free keys any stable sort agrees, embedded as insertion sort. -/
def saveDoc (l : TokenIndex) : TokenIndex :=
  l.insertionSort keyLE

/-- One line of the streamed response body, after the decode / strip /
`"data: "`-removal steps of token_sweeper.py lines 120-134, classified by
which branch of the chunk loop it takes:
* `blank`: falsy chunk, skipped (line 121);
* `doneMarker`: the literal `[DONE]`, skipped (line 129);
* `notJson`: `json.loads` raises `JSONDecodeError`, loop continues (line 147);
* `jsonNoText`: parses as JSON but `["choices"][0]["text"]` raises
  (KeyError/IndexError — not caught by the inner `except`, so it escapes to
  the attempt-level handler at line 155);
* `dataFragment t`: parses and yields text `t` (line 134). -/
inductive Chunk where
  | blank
  | doneMarker
  | notJson
  | jsonNoText
  | dataFragment (text : String)
deriving DecidableEq, Repr

/-- Outcome of the chunk-reading loop (token_sweeper.py lines 120-148). -/
inductive ChunkLoopResult where
  | found (text : String)
  | exhausted
  | raised
deriving DecidableEq, Repr

/-- The `for chunk in response.iter_lines()` loop: returns on the first
decodable fragment, raises on a malformed JSON object, otherwise skips and
finally falls through. -/
def readChunks : List Chunk → ChunkLoopResult
  | [] => .exhausted
  | .blank :: rest => readChunks rest
  | .doneMarker :: rest => readChunks rest
  | .notJson :: rest => readChunks rest
  | .jsonNoText :: _ => .raised
  | .dataFragment t :: _ => .found t

/-- What one `requests.post` attempt observes:
* `httpError s`: response with `status_code = s ≠ 200` (line 149);
* `transportError`: the request raises (timeout, connection error — line 155);
* `ok chunks`: status 200 with the given streamed body. -/
inductive AttemptOutcome where
  | httpError (status : Nat)
  | transportError
  | ok (chunks : List Chunk)
deriving DecidableEq, Repr

/-- Observable events of `_process_token_id`: one `attempt` per issued
request, one `sleep RETRY_DELAY` per `time.sleep(RETRY_DELAY)` (line 162). -/
inductive Event where
  | attempt
  | sleep (n : Nat)
deriving DecidableEq, Repr

/-- The text an attempt resolves to, if any: `some t` exactly when the
attempt returns `True` having stored text `t`. -/
def resolvesTo : AttemptOutcome → Option String
  | .httpError _ => none
  | .transportError => none
  | .ok chunks =>
    match readChunks chunks with
    | .found t => some t
    | _ => none

/-- Result of `_process_token_id`: `record = some r` exactly when the method
stored `r` into `token_index` and returned `True`; `trace` lists the issued
requests and retry sleeps in order. -/
structure ProcessResult where
  record : Option TokenRecord
  trace : List Event
deriving DecidableEq, Repr

/-- The body of the retry loop `for attempt in range(RETRY_ATTEMPTS)`
(token_sweeper.py lines 102-164).  `k` is the current 0-based attempt index,
`fuel` the number of attempts remaining (`fuel = 0` is the fall-through
`return False` after the loop; `fuel = 1` means `attempt == RETRY_ATTEMPTS - 1`).
Per the source: a found fragment stores and returns immediately; a non-200
status or a raised exception returns `False` on the last attempt and
otherwise sleeps and retries; a 200 body with no decodable fragment falls
through to the sleep even on the last attempt. -/
def processGo (oracle : Nat → AttemptOutcome) : Nat → Nat → ProcessResult
  | _, 0 => { record := none, trace := [] }
  | k, fuel + 1 =>
    let isLast := fuel = 0
    match oracle k with
    | .ok chunks =>
      match readChunks chunks with
      | .found t => { record := some (mkRecord t), trace := [.attempt] }
      | .exhausted =>
        let r := processGo oracle (k + 1) fuel
        { r with trace := .attempt :: .sleep RETRY_DELAY :: r.trace }
      | .raised =>
        if isLast then { record := none, trace := [.attempt] }
        else
          let r := processGo oracle (k + 1) fuel
          { r with trace := .attempt :: .sleep RETRY_DELAY :: r.trace }
    | .httpError _ =>
      if isLast then { record := none, trace := [.attempt] }
      else
        let r := processGo oracle (k + 1) fuel
        { r with trace := .attempt :: .sleep RETRY_DELAY :: r.trace }
    | .transportError =>
      if isLast then { record := none, trace := [.attempt] }
      else
        let r := processGo oracle (k + 1) fuel
        { r with trace := .attempt :: .sleep RETRY_DELAY :: r.trace }

/-- `_process_token_id(token_id)`, with the network abstracted as an oracle
giving the outcome of each attempt. -/
def processTokenId (oracle : Nat → AttemptOutcome) : ProcessResult :=
  processGo oracle 0 RETRY_ATTEMPTS

/-- The `self.stats` counters (token_sweeper.py lines 46-52; the wall-clock
`start_time` is not modelled). -/
structure SweepStats where
  total_processed : Nat
  successful : Nat
  failed : Nat
  skipped : Nat
deriving DecidableEq, Repr

/-- Fresh statistics, as initialized in `__init__`. -/
def initStats : SweepStats :=
  { total_processed := 0, successful := 0, failed := 0, skipped := 0 }

/-- Mutable engine state threaded through `sweep_token_ids`. -/
structure SweepState where
  token_index : TokenIndex
  token_counter : Nat
  stats : SweepStats
deriving DecidableEq, Repr

/-- Result of running the sweep loop body over a list of IDs:
the final state, the documents written by the periodic `_save_mappings`
calls in order, and the IDs for which `_process_token_id` was invoked
(each such invocation issues at least one request). -/
structure GoResult where
  state : SweepState
  docs : List TokenIndex
  resolved : List Nat
deriving DecidableEq, Repr

/-- The `for token_id in range(start_id, end_id + 1)` loop of
`sweep_token_ids` (token_sweeper.py lines 67-91): check the cancellation
flag, skip already-mapped IDs (counting them skipped, without touching the
save counter), otherwise resolve the ID, update statistics, bump the save
counter and flush when it reaches the save interval.  `cancel id` is
whether `self.should_exit` is observed set at the top of that iteration. -/
def sweepGo (oracle : Nat → Nat → AttemptOutcome) (cancel : Nat → Bool)
    (interval : Nat) : List Nat → SweepState → GoResult
  | [], st => { state := st, docs := [], resolved := [] }
  | id :: rest, st =>
    if cancel id then { state := st, docs := [], resolved := [] }
    else
      match findRecord st.token_index id with
      | some _ =>
        sweepGo oracle cancel interval rest
          { st with stats := { st.stats with skipped := st.stats.skipped + 1 } }
      | none =>
        match (processTokenId (oracle id)).record with
        | some rec =>
          let idx' := insertRecord st.token_index id rec
          let stats' := { st.stats with
            successful := st.stats.successful + 1
            total_processed := st.stats.total_processed + 1 }
          if interval ≤ st.token_counter + 1 then
            let r := sweepGo oracle cancel interval rest
              { token_index := idx', token_counter := 0, stats := stats' }
            { r with docs := saveDoc idx' :: r.docs, resolved := id :: r.resolved }
          else
            let r := sweepGo oracle cancel interval rest
              { token_index := idx', token_counter := st.token_counter + 1, stats := stats' }
            { r with resolved := id :: r.resolved }
        | none =>
          let stats' := { st.stats with
            failed := st.stats.failed + 1
            total_processed := st.stats.total_processed + 1 }
          if interval ≤ st.token_counter + 1 then
            let r := sweepGo oracle cancel interval rest
              { token_index := st.token_index, token_counter := 0, stats := stats' }
            { r with docs := saveDoc st.token_index :: r.docs, resolved := id :: r.resolved }
          else
            let r := sweepGo oracle cancel interval rest
              { token_index := st.token_index, token_counter := st.token_counter + 1,
                stats := stats' }
            { r with resolved := id :: r.resolved }

/-- `range(start_id, end_id + 1)` as a list. -/
def idRange (a b : Nat) : List Nat := List.range' a (b + 1 - a)

/-- Result of a whole `sweep_token_ids` call: the loop's outcome plus the
final flush performed in the `finally` block when `self.token_counter > 0`
(token_sweeper.py lines 93-96). -/
structure SweepResult where
  final : SweepState
  flushes : List TokenIndex
  finalFlush : Option TokenIndex
  resolved : List Nat
deriving DecidableEq, Repr

/-- `sweep_token_ids(start_id, end_id)` on an engine freshly constructed
with loaded index `I0` (so `token_counter = 0` and zeroed statistics). -/
def sweep_token_ids (oracle : Nat → Nat → AttemptOutcome) (cancel : Nat → Bool)
    (interval : Nat) (I0 : TokenIndex) (a b : Nat) : SweepResult :=
  let st0 : SweepState := { token_index := I0, token_counter := 0, stats := initStats }
  let r := sweepGo oracle cancel interval (idRange a b) st0
  { final := r.state
    flushes := r.docs
    finalFlush :=
      if r.state.token_counter > 0 then some (saveDoc r.state.token_index) else none
    resolved := r.resolved }

/-- Content of a file on disk, at flush granularity: absent, a complete
serialized document, or a partially written serialization (only the first
`k` entries durable). -/
inductive FileContent where
  | absent
  | partWritten (doc : TokenIndex) (k : Nat)
  | whole (doc : TokenIndex)
deriving DecidableEq, Repr

/-- The two files `_save_mappings` touches: the checkpoint `self.output_file`
and its temporary sibling `f"{self.output_file}.tmp"`. -/
structure DiskState where
  mainFile : FileContent
  tempFile : FileContent
deriving DecidableEq, Repr

/-- Micro-operations of `_save_mappings` (token_sweeper.py lines 178-195):
incremental writes to the temp file, then the single atomic
`os.replace`/`os.rename` of the temp file onto the checkpoint file. -/
inductive FsOp where
  | writeTempPrefix (doc : TokenIndex) (k : Nat)
  | renameTempToMain
deriving DecidableEq, Repr

/-- Effect of one micro-operation on the disk. -/
def applyOp (s : DiskState) : FsOp → DiskState
  | .writeTempPrefix d k =>
    { s with tempFile := if d.length ≤ k then .whole d else .partWritten d k }
  | .renameTempToMain => { mainFile := s.tempFile, tempFile := .absent }

/-- The micro-operation sequence of one `_save_mappings` call on index `idx`:
serialize the sorted document into the temp file step by step, then rename.
Killing the process mid-flush is running only a prefix of this sequence. -/
def flushOps (idx : TokenIndex) : List FsOp :=
  let d := saveDoc idx
  (List.range (d.length + 1)).map (FsOp.writeTempPrefix d) ++ [FsOp.renameTempToMain]

/-- Run a sequence of micro-operations. -/
def runOps (s : DiskState) (ops : List FsOp) : DiskState :=
  ops.foldl applyOp s

/-- What `_load_existing_mappings` finds at `self.output_file`: no file, a
file that `json.load` parses to a document, or a file whose parse raises
(its raw content abstracted as `raw`). -/
inductive CheckpointFile where
  | missing
  | parseable (doc : TokenIndex)
  | corrupt (raw : String)
deriving DecidableEq, Repr

/-- Result of `_load_existing_mappings` (token_sweeper.py lines 166-176):
the index the engine starts from, the checkpoint file as left on disk by
the load, and whether the error path printed its messages. -/
structure LoadResult where
  index : TokenIndex
  fileAfter : CheckpointFile
  loggedError : Bool
deriving DecidableEq, Repr

/-- `_load_existing_mappings`: parse the checkpoint if present; on a parse
failure print the error and fall back to `{}`.  No branch writes, renames
or deletes the file. -/
def loadExistingMappings : CheckpointFile → LoadResult
  | .missing => { index := [], fileAfter := .missing, loggedError := false }
  | .parseable d => { index := d, fileAfter := .parseable d, loggedError := false }
  | .corrupt raw => { index := [], fileAfter := .corrupt raw, loggedError := true }

/-- Strict key order on index entries. -/
def keyLT (p q : Nat × TokenRecord) : Prop := p.1 < q.1

instance : IsAntisymm (Nat × TokenRecord) keyLT :=
  ⟨fun _ _ h h' => absurd (Nat.lt_trans h h') (Nat.lt_irrefl _)⟩

/-- The chunks the reading loop silently passes over: falsy lines, the
`[DONE]` marker, and lines `json.loads` rejects. -/
def isSkippable : Chunk → Bool
  | .blank => true
  | .doneMarker => true
  | .notJson => true
  | .jsonNoText => false
  | .dataFragment _ => false

/-- The data-model invariant of §3: `bytes` is the byte-expansion of the
stored text. -/
def bytesOk (l : TokenIndex) : Prop :=
  ∀ p ∈ l, p.2.bytes = utf8Bytes p.2.character

/-- The token index produced by the sweep loop, as a function of the
starting index alone (the loop's index evolution does not depend on the
save counter or the statistics). -/
def idxRun (oracle : Nat → Nat → AttemptOutcome) (cancel : Nat → Bool) :
    List Nat → TokenIndex → TokenIndex
  | [], I => I
  | id :: rest, I =>
    if cancel id then I
    else
      match findRecord I id with
      | some _ => idxRun oracle cancel rest I
      | none =>
        match (processTokenId (oracle id)).record with
        | some r => idxRun oracle cancel rest (insertRecord I id r)
        | none => idxRun oracle cancel rest I

/-- The IDs for which the sweep loop invokes `_process_token_id`, as a
function of the starting index alone. -/
def resolvedRun (oracle : Nat → Nat → AttemptOutcome) (cancel : Nat → Bool) :
    List Nat → TokenIndex → List Nat
  | [], _ => []
  | id :: rest, I =>
    if cancel id then []
    else
      match findRecord I id with
      | some _ => resolvedRun oracle cancel rest I
      | none =>
        match (processTokenId (oracle id)).record with
        | some r => id :: resolvedRun oracle cancel rest (insertRecord I id r)
        | none => id :: resolvedRun oracle cancel rest I

/-- The number of IDs the sweep loop counts as skipped, as a function of
the starting index alone. -/
def skipRun (oracle : Nat → Nat → AttemptOutcome) (cancel : Nat → Bool) :
    List Nat → TokenIndex → Nat
  | [], _ => 0
  | id :: rest, I =>
    if cancel id then 0
    else
      match findRecord I id with
      | some _ => skipRun oracle cancel rest I + 1
      | none =>
        match (processTokenId (oracle id)).record with
        | some r => skipRun oracle cancel rest (insertRecord I id r)
        | none => skipRun oracle cancel rest I

/-! ## Basic lemmas about the chunk loop and the retry loop -/

lemma readChunks_append_skippable (pre l : List Chunk)
    (h : ∀ c ∈ pre, isSkippable c = true) :
    readChunks (pre ++ l) = readChunks l := by
  induction pre with
  | nil => rfl
  | cons c cs ih =>
    have hc := h c (List.mem_cons_self c cs)
    have hcs : ∀ x ∈ cs, isSkippable x = true :=
      fun x hx => h x (List.mem_cons_of_mem _ hx)
    cases c with
    | blank => simpa [readChunks] using ih hcs
    | doneMarker => simpa [readChunks] using ih hcs
    | notJson => simpa [readChunks] using ih hcs
    | jsonNoText => simp [isSkippable] at hc
    | dataFragment t => simp [isSkippable] at hc

lemma processGo_found {t : String} (o : Nat → AttemptOutcome) (k fuel : Nat)
    (h : resolvesTo (o k) = some t) :
    processGo o k (fuel + 1) = { record := some (mkRecord t), trace := [.attempt] } := by
  cases ho : o k with
  | httpError s => rw [ho] at h; simp [resolvesTo] at h
  | transportError => rw [ho] at h; simp [resolvesTo] at h
  | ok chunks =>
    rw [ho] at h
    cases hr : readChunks chunks with
    | found t' =>
      simp [resolvesTo, hr] at h
      subst h
      simp [processGo, ho, hr]
    | exhausted => simp [resolvesTo, hr] at h
    | raised => simp [resolvesTo, hr] at h

lemma processGo_fail_notlast (o : Nat → AttemptOutcome) (k fuel : Nat)
    (h : resolvesTo (o k) = none) :
    processGo o k (fuel + 1 + 1)
      = { record := (processGo o (k + 1) (fuel + 1)).record,
          trace := .attempt :: .sleep RETRY_DELAY :: (processGo o (k + 1) (fuel + 1)).trace } := by
  cases ho : o k with
  | httpError s => simp [processGo, ho]
  | transportError => simp [processGo, ho]
  | ok chunks =>
    rw [ho] at h
    cases hr : readChunks chunks with
    | found t => simp [resolvesTo, hr] at h
    | exhausted => simp [processGo, ho, hr]
    | raised => simp [processGo, ho, hr]

lemma processGo_fail_one (o : Nat → AttemptOutcome) (k : Nat)
    (h : resolvesTo (o k) = none) :
    processGo o k (0 + 1) = { record := none, trace := [.attempt] }
    ∨ processGo o k (0 + 1) = { record := none, trace := [.attempt, .sleep RETRY_DELAY] } := by
  cases ho : o k with
  | httpError s => left; simp [processGo, ho]
  | transportError => left; simp [processGo, ho]
  | ok chunks =>
    rw [ho] at h
    cases hr : readChunks chunks with
    | found t => simp [resolvesTo, hr] at h
    | exhausted => right; simp [processGo, ho, hr]
    | raised => left; simp [processGo, ho, hr]

/-! ## C6: corrupt-checkpoint tolerance at startup -/

/-- C6: at startup, a checkpoint file that fails to parse is logged and
replaced by an empty in-memory index, and the load leaves the corrupt file
on disk exactly as it was (no branch of `_load_existing_mappings` deletes,
renames or rewrites the file), so no data is lost. -/
theorem corrupt_checkpoint_tolerated :
    (∀ raw, loadExistingMappings (.corrupt raw)
      = { index := [], fileAfter := .corrupt raw, loggedError := true })
    ∧ ∀ f, (loadExistingMappings f).fileAfter = f :=
  ⟨fun _ => rfl, fun f => by cases f <;> rfl⟩

/-! ## C2: atomic checkpoint flush -/

lemma mainFile_after_writes (d : TokenIndex) (ks : List Nat) (s : DiskState) :
    (runOps s (ks.map (FsOp.writeTempPrefix d))).mainFile = s.mainFile := by
  induction ks generalizing s with
  | nil => rfl
  | cons k ks ih =>
    show (runOps (applyOp s (FsOp.writeTempPrefix d k)) (ks.map (FsOp.writeTempPrefix d))).mainFile
      = s.mainFile
    rw [ih]
    rfl

lemma tempFile_after_all_writes (d : TokenIndex) (s : DiskState) :
    (runOps s ((List.range (d.length + 1)).map (FsOp.writeTempPrefix d))).tempFile
      = .whole d := by
  rw [List.range_succ, List.map_append, runOps, List.foldl_append]
  simp [applyOp]

/-- C2: every flush serializes the sorted index to the temporary sibling
file step by step and then atomically renames it onto the checkpoint file:
after executing any prefix of the flush's micro-operations (i.e., killing
the process at any point mid-flush), the checkpoint file holds either its
prior content, untouched, or the new complete snapshot — never a partial
write; and a completed flush leaves the new complete snapshot. -/
theorem flush_checkpoint_atomic (idx : TokenIndex) (s0 : DiskState) :
    (∀ i, (runOps s0 ((flushOps idx).take i)).mainFile = s0.mainFile
      ∨ (runOps s0 ((flushOps idx).take i)).mainFile = .whole (saveDoc idx))
    ∧ (runOps s0 (flushOps idx)).mainFile = .whole (saveDoc idx) := by
  have hfull : (runOps s0 (flushOps idx)).mainFile = .whole (saveDoc idx) := by
    show (runOps s0
      ((List.range ((saveDoc idx).length + 1)).map (FsOp.writeTempPrefix (saveDoc idx))
        ++ [FsOp.renameTempToMain])).mainFile = FileContent.whole (saveDoc idx)
    rw [runOps, List.foldl_append]
    show (applyOp (runOps s0
      ((List.range ((saveDoc idx).length + 1)).map (FsOp.writeTempPrefix (saveDoc idx))))
      FsOp.renameTempToMain).mainFile = FileContent.whole (saveDoc idx)
    rw [applyOp]
    exact tempFile_after_all_writes (saveDoc idx) s0
  refine ⟨fun i => ?_, hfull⟩
  by_cases hi :
    i ≤ ((List.range ((saveDoc idx).length + 1)).map (FsOp.writeTempPrefix (saveDoc idx))).length
  · left
    show (runOps s0
      (((List.range ((saveDoc idx).length + 1)).map (FsOp.writeTempPrefix (saveDoc idx))
        ++ [FsOp.renameTempToMain]).take i)).mainFile = s0.mainFile
    rw [List.take_append_of_le_length hi, ← List.map_take]
    exact mainFile_after_writes _ _ _
  · right
    have hlen : (flushOps idx).length ≤ i := by
      push_neg at hi
      have : (flushOps idx).length
          = ((List.range ((saveDoc idx).length + 1)).map
              (FsOp.writeTempPrefix (saveDoc idx))).length + 1 := by
        simp [flushOps]
      omega
    rw [List.take_of_length_le hlen]
    exact hfull

/-! ## C9: the worked example from the spec -/

/-- C9: sweeping `[10, 12]` against an empty index, where resolution yields
text "a" for ID 10, times out on every attempt for ID 11, and yields text
"bc" for ID 12, ends with exactly the records
`{10: {text "a", bytes [97]}, 12: {text "bc", bytes [98, 99]}}` and
statistics `successful = 2, failed = 1, skipped = 0, total_processed = 3`. -/
theorem example_sweep_range_10_12 :
    (sweep_token_ids
      (fun id _ =>
        if id = 10 then .ok [.dataFragment "a"]
        else if id = 11 then .transportError
        else .ok [.dataFragment "bc"])
      (fun _ => false) SAVE_INTERVAL [] 10 12).final.token_index
      = [(10, { character := "a", bytes := [97] }),
         (12, { character := "bc", bytes := [98, 99] })]
    ∧ (sweep_token_ids
      (fun id _ =>
        if id = 10 then .ok [.dataFragment "a"]
        else if id = 11 then .transportError
        else .ok [.dataFragment "bc"])
      (fun _ => false) SAVE_INTERVAL [] 10 12).final.stats
      = { total_processed := 3, successful := 2, failed := 1, skipped := 0 } := by
  decide

/-! ## C8: only the first decodable fragment matters -/

/-- C8: a successful resolution stores the text of the first decodable
fragment of the response and stops reading: the chunk loop returns on the
first decodable fragment, the stored record is built from exactly that
fragment, and fragments after the first never affect the result. -/
theorem first_fragment_resolution (pre rest rest' : List Chunk) (t : String)
    (h : ∀ c ∈ pre, isSkippable c = true) :
    readChunks (pre ++ .dataFragment t :: rest) = .found t
    ∧ processTokenId (fun _ => .ok (pre ++ .dataFragment t :: rest))
      = { record := some (mkRecord t), trace := [.attempt] }
    ∧ processTokenId (fun _ => .ok (pre ++ .dataFragment t :: rest))
      = processTokenId (fun _ => .ok (pre ++ .dataFragment t :: rest'))
    ∧ ∀ (oracle : Nat → AttemptOutcome) (k : Nat),
        oracle k = .ok (pre ++ .dataFragment t :: rest) →
        resolvesTo (oracle k) = some t := by
  have h1 : readChunks (pre ++ Chunk.dataFragment t :: rest) = .found t := by
    rw [readChunks_append_skippable pre _ h]
    rfl
  have hres : resolvesTo (AttemptOutcome.ok (pre ++ Chunk.dataFragment t :: rest)) = some t := by
    simp [resolvesTo, h1]
  have hres' : resolvesTo (AttemptOutcome.ok (pre ++ Chunk.dataFragment t :: rest')) = some t := by
    have h1' : readChunks (pre ++ Chunk.dataFragment t :: rest') = .found t := by
      rw [readChunks_append_skippable pre _ h]
      rfl
    simp [resolvesTo, h1']
  have h2 : processTokenId (fun _ => AttemptOutcome.ok (pre ++ Chunk.dataFragment t :: rest))
      = { record := some (mkRecord t), trace := [.attempt] } :=
    processGo_found _ 0 2 hres
  have h2' : processTokenId (fun _ => AttemptOutcome.ok (pre ++ Chunk.dataFragment t :: rest'))
      = { record := some (mkRecord t), trace := [.attempt] } :=
    processGo_found _ 0 2 hres'
  exact ⟨h1, h2, h2.trans h2'.symm, fun oracle k hk => by rw [hk]; exact hres⟩

/-- Witness for C8 at a concrete response body. -/
theorem first_fragment_resolution_witness :
    processTokenId (fun _ => .ok [.blank, .doneMarker, .dataFragment "ab", .dataFragment "zz"])
      = { record := some (mkRecord "ab"), trace := [.attempt] } :=
  (first_fragment_resolution [.blank, .doneMarker] [.dataFragment "zz"] [] "ab"
    (by decide)).2.1

/-! ## C10: an empty first fragment is stored, not treated as failure -/

/-- C10: if the first decodable chunk of the response carries an empty text
string, `_process_token_id` still stores a TokenRecord with empty text and
empty bytes and returns success; at sweep level the ID is inserted into the
TokenIndex and counted successful, not failed. -/
theorem empty_fragment_recorded (pre rest : List Chunk)
    (h : ∀ c ∈ pre, isSkippable c = true) :
    processTokenId (fun _ => .ok (pre ++ .dataFragment "" :: rest))
      = { record := some { character := "", bytes := [] }, trace := [.attempt] }
    ∧ (sweep_token_ids (fun _ _ => .ok (pre ++ .dataFragment "" :: rest))
        (fun _ => false) SAVE_INTERVAL [] 5 5).final
      = { token_index := [(5, { character := "", bytes := [] })],
          token_counter := 1,
          stats := { total_processed := 1, successful := 1, failed := 0, skipped := 0 } } := by
  have h1 : readChunks (pre ++ Chunk.dataFragment "" :: rest) = .found "" := by
    rw [readChunks_append_skippable pre _ h]
    rfl
  have hres : resolvesTo (AttemptOutcome.ok (pre ++ Chunk.dataFragment "" :: rest)) = some "" := by
    simp [resolvesTo, h1]
  have h2 : processTokenId (fun _ => AttemptOutcome.ok (pre ++ Chunk.dataFragment "" :: rest))
      = { record := some { character := "", bytes := [] }, trace := [.attempt] } :=
    processGo_found _ 0 2 hres
  refine ⟨h2, ?_⟩
  have e : idRange 5 5 = [5] := rfl
  have hsw : sweepGo (fun _ _ => AttemptOutcome.ok (pre ++ Chunk.dataFragment "" :: rest))
      (fun _ => false) SAVE_INTERVAL [5]
      { token_index := [], token_counter := 0, stats := initStats }
      = { state := { token_index := [(5, { character := "", bytes := [] })],
                     token_counter := 1,
                     stats := { total_processed := 1, successful := 1, failed := 0,
                                skipped := 0 } },
          docs := [], resolved := [5] } := by
    simp [sweepGo, findRecord, h2, insertRecord, initStats, SAVE_INTERVAL]
  simp [sweep_token_ids, e, hsw]

/-- Witness for C10 at a concrete response body. -/
theorem empty_fragment_recorded_witness :
    processTokenId (fun _ => .ok [.notJson, .dataFragment "", .dataFragment "x"])
      = { record := some { character := "", bytes := [] }, trace := [.attempt] } :=
  (empty_fragment_recorded [.notJson] [.dataFragment "x"] (by decide)).1

/-! ## C3: retry exhaustion -/

lemma findRecord_insertRecord (l : TokenIndex) (i : Nat) (r : TokenRecord) (k : Nat) :
    findRecord (insertRecord l i r) k = if k = i then some r else findRecord l k := by
  induction l with
  | nil =>
    by_cases hk : k = i
    · subst hk; simp [insertRecord, findRecord]
    · have hik : ¬ i = k := fun hh => hk hh.symm
      simp [insertRecord, findRecord, hk, hik]
  | cons p rest ih =>
    obtain ⟨a, b⟩ := p
    by_cases ha : a = i
    · subst ha
      by_cases hk : k = a
      · subst hk; simp [insertRecord, findRecord]
      · have hak : ¬ a = k := fun hh => hk hh.symm
        simp [insertRecord, findRecord, hk, hak]
    · by_cases hk : a = k
      · subst hk
        simp [insertRecord, findRecord, ha]
      · simp [insertRecord, findRecord, ha, hk, ih]

lemma sweepGo_find_not_mem (o : Nat → Nat → AttemptOutcome) (c : Nat → Bool) (iv : Nat)
    (ids : List Nat) (i : Nat) (hi : i ∉ ids) :
    ∀ st : SweepState,
      findRecord (sweepGo o c iv ids st).state.token_index i = findRecord st.token_index i := by
  induction ids with
  | nil => intro st; rfl
  | cons id rest ih =>
    intro st
    have hiid : i ≠ id := fun hh => hi (hh ▸ List.mem_cons_self id rest)
    have hirest : i ∉ rest := fun hh => hi (List.mem_cons_of_mem _ hh)
    cases hc : c id with
    | true => simp [sweepGo, hc]
    | false =>
      cases hfr : findRecord st.token_index id with
      | some v => simp [sweepGo, hc, hfr, ih hirest]
      | none =>
        cases hpr : (processTokenId (o id)).record with
        | some rec =>
          by_cases hint : iv ≤ st.token_counter + 1 <;>
            simp [sweepGo, hc, hfr, hpr, hint, ih hirest, findRecord_insertRecord, hiid]
        | none =>
          by_cases hint : iv ≤ st.token_counter + 1 <;>
            simp [sweepGo, hc, hfr, hpr, hint, ih hirest]

/-- C3: if every attempt for an ID fails (non-success status, transport
error, or a body with no decodable fragment), `_process_token_id` issues
exactly `RETRY_ATTEMPTS = 3` requests with a `RETRY_DELAY = 2` sleep
between consecutive attempts (plus, in the undecodable-body case only, one
trailing sleep), returns failure only after all attempts; the sweep then
counts the ID as failed, leaves it absent from the TokenIndex, and
continues with the remaining IDs. -/
theorem retry_exhaustion_spec (oracle : Nat → AttemptOutcome)
    (h : ∀ k, resolvesTo (oracle k) = none)
    (sworacle : Nat → Nat → AttemptOutcome) (cancel : Nat → Bool) (interval : Nat)
    (i : Nat) (rest : List Nat) (st : SweepState)
    (hor : sworacle i = oracle) (hc : cancel i = false)
    (habs : findRecord st.token_index i = none) (hrest : i ∉ rest) :
    (processTokenId oracle).record = none
    ∧ ((processTokenId oracle).trace
        = [.attempt, .sleep RETRY_DELAY, .attempt, .sleep RETRY_DELAY, .attempt]
      ∨ (processTokenId oracle).trace
        = [.attempt, .sleep RETRY_DELAY, .attempt, .sleep RETRY_DELAY, .attempt,
           .sleep RETRY_DELAY])
    ∧ (∃ st' : SweepState,
        st'.token_index = st.token_index
        ∧ st'.stats.failed = st.stats.failed + 1
        ∧ st'.stats.total_processed = st.stats.total_processed + 1
        ∧ st'.stats.successful = st.stats.successful
        ∧ st'.stats.skipped = st.stats.skipped
        ∧ (sweepGo sworacle cancel interval (i :: rest) st).state
            = (sweepGo sworacle cancel interval rest st').state
        ∧ (sweepGo sworacle cancel interval (i :: rest) st).resolved
            = i :: (sweepGo sworacle cancel interval rest st').resolved)
    ∧ findRecord (sweepGo sworacle cancel interval (i :: rest) st).state.token_index i
        = none := by
  have e1 : processGo oracle 0 3
      = { record := (processGo oracle 1 2).record,
          trace := .attempt :: .sleep RETRY_DELAY :: (processGo oracle 1 2).trace } :=
    processGo_fail_notlast oracle 0 1 (h 0)
  have e2 : processGo oracle 1 2
      = { record := (processGo oracle 2 1).record,
          trace := .attempt :: .sleep RETRY_DELAY :: (processGo oracle 2 1).trace } :=
    processGo_fail_notlast oracle 1 0 (h 1)
  have e3 : processGo oracle 2 1 = { record := none, trace := [.attempt] }
      ∨ processGo oracle 2 1 = { record := none, trace := [.attempt, .sleep RETRY_DELAY] } :=
    processGo_fail_one oracle 2 (h 2)
  have hpt : processTokenId oracle = processGo oracle 0 3 := rfl
  have hrecn : (processTokenId oracle).record = none := by
    rw [hpt, e1, e2]
    rcases e3 with e3 | e3 <;> rw [e3]
  have htrace : (processTokenId oracle).trace
      = [.attempt, .sleep RETRY_DELAY, .attempt, .sleep RETRY_DELAY, .attempt]
      ∨ (processTokenId oracle).trace
      = [.attempt, .sleep RETRY_DELAY, .attempt, .sleep RETRY_DELAY, .attempt,
         .sleep RETRY_DELAY] := by
    rw [hpt, e1, e2]
    rcases e3 with e3 | e3
    · left; rw [e3]
    · right; rw [e3]
  have hrecn' : (processTokenId (sworacle i)).record = none := by rw [hor]; exact hrecn
  have hex : ∃ st' : SweepState,
      st'.token_index = st.token_index
      ∧ st'.stats.failed = st.stats.failed + 1
      ∧ st'.stats.total_processed = st.stats.total_processed + 1
      ∧ st'.stats.successful = st.stats.successful
      ∧ st'.stats.skipped = st.stats.skipped
      ∧ (sweepGo sworacle cancel interval (i :: rest) st).state
          = (sweepGo sworacle cancel interval rest st').state
      ∧ (sweepGo sworacle cancel interval (i :: rest) st).resolved
          = i :: (sweepGo sworacle cancel interval rest st').resolved := by
    by_cases hint : interval ≤ st.token_counter + 1
    · exact ⟨{ token_index := st.token_index
               token_counter := 0
               stats := { st.stats with
                  failed := st.stats.failed + 1
                  total_processed := st.stats.total_processed + 1 } },
        rfl, rfl, rfl, rfl, rfl,
        by simp [sweepGo, hc, habs, hrecn', hint],
        by simp [sweepGo, hc, habs, hrecn', hint]⟩
    · exact ⟨{ token_index := st.token_index
               token_counter := st.token_counter + 1
               stats := { st.stats with
                  failed := st.stats.failed + 1
                  total_processed := st.stats.total_processed + 1 } },
        rfl, rfl, rfl, rfl, rfl,
        by simp [sweepGo, hc, habs, hrecn', hint],
        by simp [sweepGo, hc, habs, hrecn', hint]⟩
  refine ⟨hrecn, htrace, hex, ?_⟩
  obtain ⟨st', hidx, _, _, _, _, hstate, _⟩ := hex
  rw [hstate]
  rw [sweepGo_find_not_mem sworacle cancel interval rest i hrest st', hidx]
  exact habs

/-- Witness for C3 with an always-timing-out oracle. -/
theorem retry_exhaustion_spec_witness :
    (processTokenId (fun _ => .transportError)).record = none
    ∧ ((processTokenId (fun _ => .transportError)).trace
        = [.attempt, .sleep RETRY_DELAY, .attempt, .sleep RETRY_DELAY, .attempt]
      ∨ (processTokenId (fun _ => .transportError)).trace
        = [.attempt, .sleep RETRY_DELAY, .attempt, .sleep RETRY_DELAY, .attempt,
           .sleep RETRY_DELAY]) :=
  have hfull := retry_exhaustion_spec (fun _ => .transportError) (fun _ => rfl)
    (fun _ _ => .transportError) (fun _ => false) SAVE_INTERVAL 7 []
    { token_index := [], token_counter := 0, stats := initStats }
    rfl rfl rfl (by decide)
  ⟨hfull.1, hfull.2.1⟩

/-! ## C7: bytes are always the UTF-8 expansion of the text -/

lemma processGo_record_bytes (o : Nat → AttemptOutcome) (fuel : Nat) :
    ∀ (k : Nat) (r : TokenRecord),
      (processGo o k fuel).record = some r → r.bytes = utf8Bytes r.character := by
  induction fuel with
  | zero => intro k r h; simp [processGo] at h
  | succ fuel ih =>
    intro k r h
    cases ho : o k with
    | httpError s =>
      by_cases hf : fuel = 0
      · simp [processGo, ho, hf] at h
      · simp [processGo, ho, hf] at h
        exact ih _ _ h
    | transportError =>
      by_cases hf : fuel = 0
      · simp [processGo, ho, hf] at h
      · simp [processGo, ho, hf] at h
        exact ih _ _ h
    | ok chunks =>
      cases hr : readChunks chunks with
      | found t =>
        simp [processGo, ho, hr] at h
        rw [← h]
        rfl
      | exhausted =>
        simp [processGo, ho, hr] at h
        exact ih _ _ h
      | raised =>
        by_cases hf : fuel = 0
        · simp [processGo, ho, hr, hf] at h
        · simp [processGo, ho, hr, hf] at h
          exact ih _ _ h

lemma bytesOk_insert (l : TokenIndex) (i : Nat) (r : TokenRecord)
    (hl : bytesOk l) (hr : r.bytes = utf8Bytes r.character) :
    bytesOk (insertRecord l i r) := by
  induction l with
  | nil =>
    intro p hp
    simp [insertRecord] at hp
    rw [hp]
    exact hr
  | cons q rest ih =>
    obtain ⟨a, b⟩ := q
    have hrest : bytesOk rest := fun p hp => hl p (List.mem_cons_of_mem _ hp)
    intro p hp
    by_cases ha : a = i
    · simp [insertRecord, ha] at hp
      rcases hp with hp | hp
      · rw [hp]; exact hr
      · exact hrest p hp
    · simp [insertRecord, ha] at hp
      rcases hp with hp | hp
      · rw [hp]; exact hl (a, b) (List.mem_cons_self _ _)
      · exact ih hrest p hp

lemma bytesOk_saveDoc (l : TokenIndex) (h : bytesOk l) : bytesOk (saveDoc l) :=
  fun p hp => h p ((List.perm_insertionSort keyLE l).mem_iff.mp hp)

lemma sweepGo_bytesOk (o : Nat → Nat → AttemptOutcome) (c : Nat → Bool) (iv : Nat)
    (ids : List Nat) :
    ∀ st : SweepState, bytesOk st.token_index →
      bytesOk (sweepGo o c iv ids st).state.token_index
      ∧ ∀ d ∈ (sweepGo o c iv ids st).docs, bytesOk d := by
  induction ids with
  | nil =>
    intro st h
    exact ⟨h, by intro d hd; simp [sweepGo] at hd⟩
  | cons id rest ih =>
    intro st h
    cases hc : c id with
    | true =>
      refine ⟨?_, ?_⟩
      · simpa [sweepGo, hc] using h
      · intro d hd; simp [sweepGo, hc] at hd
    | false =>
      cases hfr : findRecord st.token_index id with
      | some v =>
        have := ih { st with stats := { st.stats with skipped := st.stats.skipped + 1 } } h
        refine ⟨?_, ?_⟩
        · simpa [sweepGo, hc, hfr] using this.1
        · intro d hd
          simp only [sweepGo, hc, hfr] at hd
          exact this.2 d hd
      | none =>
        cases hpr : (processTokenId (o id)).record with
        | some rec =>
          have hrec : rec.bytes = utf8Bytes rec.character :=
            processGo_record_bytes (o id) RETRY_ATTEMPTS 0 rec hpr
          have hidx : bytesOk (insertRecord st.token_index id rec) :=
            bytesOk_insert _ _ _ h hrec
          by_cases hint : iv ≤ st.token_counter + 1
          · have := ih { token_index := insertRecord st.token_index id rec
                         token_counter := 0
                         stats := { st.stats with
                            successful := st.stats.successful + 1
                            total_processed := st.stats.total_processed + 1 } } hidx
            refine ⟨?_, ?_⟩
            · simpa [sweepGo, hc, hfr, hpr, hint] using this.1
            · intro d hd
              simp only [sweepGo, hc, hfr, hpr, if_pos hint] at hd
              rcases List.mem_cons.mp hd with hd | hd
              · rw [hd]; exact bytesOk_saveDoc _ hidx
              · exact this.2 d hd
          · have := ih { token_index := insertRecord st.token_index id rec
                         token_counter := st.token_counter + 1
                         stats := { st.stats with
                            successful := st.stats.successful + 1
                            total_processed := st.stats.total_processed + 1 } } hidx
            refine ⟨?_, ?_⟩
            · simpa [sweepGo, hc, hfr, hpr, hint] using this.1
            · intro d hd
              simp only [sweepGo, hc, hfr, hpr, if_neg hint] at hd
              exact this.2 d hd
        | none =>
          by_cases hint : iv ≤ st.token_counter + 1
          · have := ih { token_index := st.token_index
                         token_counter := 0
                         stats := { st.stats with
                            failed := st.stats.failed + 1
                            total_processed := st.stats.total_processed + 1 } } h
            refine ⟨?_, ?_⟩
            · simpa [sweepGo, hc, hfr, hpr, hint] using this.1
            · intro d hd
              simp only [sweepGo, hc, hfr, hpr, if_pos hint] at hd
              rcases List.mem_cons.mp hd with hd | hd
              · rw [hd]; exact bytesOk_saveDoc _ h
              · exact this.2 d hd
          · have := ih { token_index := st.token_index
                         token_counter := st.token_counter + 1
                         stats := { st.stats with
                            failed := st.stats.failed + 1
                            total_processed := st.stats.total_processed + 1 } } h
            refine ⟨?_, ?_⟩
            · simpa [sweepGo, hc, hfr, hpr, hint] using this.1
            · intro d hd
              simp only [sweepGo, hc, hfr, hpr, if_neg hint] at hd
              exact this.2 d hd

/-- C7: every record `_process_token_id` stores satisfies
`bytes = utf8(text)`, and consequently, whenever the index loaded at
startup satisfies the invariant (as any checkpoint produced by this
engine's own flushes does, starting from the empty index), every record of
the final in-memory index and of every persisted document — periodic
flushes and the final flush, including records merely loaded and
re-persisted — satisfies `bytes = utf8(text)`. -/
theorem persisted_bytes_consistent (o : Nat → Nat → AttemptOutcome) (c : Nat → Bool)
    (iv : Nat) (I0 : TokenIndex) (a b : Nat) (h : bytesOk I0) :
    (∀ (oracle : Nat → AttemptOutcome) (r : TokenRecord),
        (processTokenId oracle).record = some r → r.bytes = utf8Bytes r.character)
    ∧ bytesOk (sweep_token_ids o c iv I0 a b).final.token_index
    ∧ ∀ d, (d ∈ (sweep_token_ids o c iv I0 a b).flushes
        ∨ (sweep_token_ids o c iv I0 a b).finalFlush = some d) → bytesOk d := by
  have hmain := sweepGo_bytesOk o c iv (idRange a b)
    { token_index := I0, token_counter := 0, stats := initStats } h
  refine ⟨fun oracle r hr => processGo_record_bytes oracle RETRY_ATTEMPTS 0 r hr,
    hmain.1, ?_⟩
  intro d hd
  rcases hd with hd | hd
  · exact hmain.2 d hd
  · by_cases hct :
      (sweepGo o c iv (idRange a b)
        { token_index := I0, token_counter := 0, stats := initStats }).state.token_counter > 0
    · have he : (sweep_token_ids o c iv I0 a b).finalFlush
          = some (saveDoc (sweepGo o c iv (idRange a b)
              { token_index := I0, token_counter := 0, stats := initStats }).state.token_index) := by
        simp [sweep_token_ids, hct]
      rw [he] at hd
      have hd' := Option.some_injective _ hd.symm
      rw [hd']
      exact bytesOk_saveDoc _ hmain.1
    · have he : (sweep_token_ids o c iv I0 a b).finalFlush = none := by
        simp [sweep_token_ids, hct]
      rw [he] at hd
      exact absurd hd (by simp)

/-- Witness for C7: a record loaded from a prior checkpoint satisfying the
invariant is re-persisted still satisfying it, alongside fresh records. -/
theorem persisted_bytes_consistent_witness :
    bytesOk (sweep_token_ids (fun _ _ => .ok [.dataFragment "a"]) (fun _ => false)
      SAVE_INTERVAL [(3, { character := "b", bytes := [98] })] 10 10).final.token_index :=
  (persisted_bytes_consistent (fun _ _ => .ok [.dataFragment "a"]) (fun _ => false)
    SAVE_INTERVAL [(3, { character := "b", bytes := [98] })] 10 10
    (by intro p hp; simp only [List.mem_singleton] at hp; subst hp; rfl)).2.1

/-! ## C4: persisted documents are strictly ascending in numeric ID -/

lemma mem_keys_insertRecord (l : TokenIndex) (i : Nat) (r : TokenRecord) (j : Nat) :
    j ∈ (insertRecord l i r).map Prod.fst ↔ j ∈ l.map Prod.fst ∨ j = i := by
  induction l with
  | nil => simp [insertRecord]
  | cons p rest ih =>
    obtain ⟨a, b⟩ := p
    by_cases ha : a = i
    · subst ha
      simp [insertRecord]
      tauto
    · simp [insertRecord, ha, ih]
      tauto

lemma keys_nodup_insertRecord (l : TokenIndex) (i : Nat) (r : TokenRecord)
    (h : (l.map Prod.fst).Nodup) : ((insertRecord l i r).map Prod.fst).Nodup := by
  induction l with
  | nil => simp [insertRecord]
  | cons p rest ih =>
    obtain ⟨a, b⟩ := p
    simp only [List.map_cons, List.nodup_cons] at h
    obtain ⟨ha_nin, hrest⟩ := h
    by_cases ha : a = i
    · subst ha
      simp [insertRecord, ha_nin, hrest]
    · simp only [insertRecord, if_neg ha, List.map_cons, List.nodup_cons]
      refine ⟨?_, ih hrest⟩
      rw [mem_keys_insertRecord]
      rintro (hm | hm)
      · exact ha_nin hm
      · exact ha hm

lemma saveDoc_keys_sorted (l : TokenIndex) (h : (l.map Prod.fst).Nodup) :
    List.Sorted (fun x y : Nat => x < y) ((saveDoc l).map Prod.fst) := by
  have hperm : ((saveDoc l).map Prod.fst).Perm (l.map Prod.fst) :=
    (List.perm_insertionSort keyLE l).map _
  have hnd : ((saveDoc l).map Prod.fst).Nodup := hperm.nodup_iff.mpr h
  have hs : List.Pairwise keyLE (saveDoc l) := List.sorted_insertionSort keyLE l
  have hs' : List.Pairwise (fun x y : Nat => x ≤ y) ((saveDoc l).map Prod.fst) :=
    List.pairwise_map.mpr hs
  exact (hs'.and hnd).imp fun hab => lt_of_le_of_ne hab.1 hab.2

lemma sweepGo_keys_nodup_docs_sorted (o : Nat → Nat → AttemptOutcome) (c : Nat → Bool)
    (iv : Nat) (ids : List Nat) :
    ∀ st : SweepState, (st.token_index.map Prod.fst).Nodup →
      ((sweepGo o c iv ids st).state.token_index.map Prod.fst).Nodup
      ∧ ∀ d ∈ (sweepGo o c iv ids st).docs,
          List.Sorted (fun x y : Nat => x < y) (d.map Prod.fst) := by
  induction ids with
  | nil =>
    intro st h
    exact ⟨h, by intro d hd; simp [sweepGo] at hd⟩
  | cons id rest ih =>
    intro st h
    cases hc : c id with
    | true =>
      refine ⟨?_, ?_⟩
      · simpa [sweepGo, hc] using h
      · intro d hd; simp [sweepGo, hc] at hd
    | false =>
      cases hfr : findRecord st.token_index id with
      | some v =>
        have := ih { st with stats := { st.stats with skipped := st.stats.skipped + 1 } } h
        refine ⟨?_, ?_⟩
        · simpa [sweepGo, hc, hfr] using this.1
        · intro d hd
          simp only [sweepGo, hc, hfr] at hd
          exact this.2 d hd
      | none =>
        cases hpr : (processTokenId (o id)).record with
        | some rec =>
          have hidx : ((insertRecord st.token_index id rec).map Prod.fst).Nodup :=
            keys_nodup_insertRecord _ _ _ h
          by_cases hint : iv ≤ st.token_counter + 1
          · have := ih { token_index := insertRecord st.token_index id rec
                         token_counter := 0
                         stats := { st.stats with
                            successful := st.stats.successful + 1
                            total_processed := st.stats.total_processed + 1 } } hidx
            refine ⟨?_, ?_⟩
            · simpa [sweepGo, hc, hfr, hpr, hint] using this.1
            · intro d hd
              simp only [sweepGo, hc, hfr, hpr, if_pos hint] at hd
              rcases List.mem_cons.mp hd with hd | hd
              · rw [hd]; exact saveDoc_keys_sorted _ hidx
              · exact this.2 d hd
          · have := ih { token_index := insertRecord st.token_index id rec
                         token_counter := st.token_counter + 1
                         stats := { st.stats with
                            successful := st.stats.successful + 1
                            total_processed := st.stats.total_processed + 1 } } hidx
            refine ⟨?_, ?_⟩
            · simpa [sweepGo, hc, hfr, hpr, hint] using this.1
            · intro d hd
              simp only [sweepGo, hc, hfr, hpr, if_neg hint] at hd
              exact this.2 d hd
        | none =>
          by_cases hint : iv ≤ st.token_counter + 1
          · have := ih { token_index := st.token_index
                         token_counter := 0
                         stats := { st.stats with
                            failed := st.stats.failed + 1
                            total_processed := st.stats.total_processed + 1 } } h
            refine ⟨?_, ?_⟩
            · simpa [sweepGo, hc, hfr, hpr, hint] using this.1
            · intro d hd
              simp only [sweepGo, hc, hfr, hpr, if_pos hint] at hd
              rcases List.mem_cons.mp hd with hd | hd
              · rw [hd]; exact saveDoc_keys_sorted _ h
              · exact this.2 d hd
          · have := ih { token_index := st.token_index
                         token_counter := st.token_counter + 1
                         stats := { st.stats with
                            failed := st.stats.failed + 1
                            total_processed := st.stats.total_processed + 1 } } h
            refine ⟨?_, ?_⟩
            · simpa [sweepGo, hc, hfr, hpr, hint] using this.1
            · intro d hd
              simp only [sweepGo, hc, hfr, hpr, if_neg hint] at hd
              exact this.2 d hd

/-- C4: if the loaded index has duplicate-free keys (JSON objects cannot
carry duplicate keys), then after any flush — periodic or final — the
persisted document's entries are in strictly ascending numeric-ID order,
regardless of the order in which records were inserted during the run. -/
theorem flush_sorted_ascending (o : Nat → Nat → AttemptOutcome) (c : Nat → Bool)
    (iv : Nat) (I0 : TokenIndex) (a b : Nat) (h : (I0.map Prod.fst).Nodup) :
    ∀ d, (d ∈ (sweep_token_ids o c iv I0 a b).flushes
        ∨ (sweep_token_ids o c iv I0 a b).finalFlush = some d) →
      List.Sorted (fun x y : Nat => x < y) (d.map Prod.fst) := by
  have hmain := sweepGo_keys_nodup_docs_sorted o c iv (idRange a b)
    { token_index := I0, token_counter := 0, stats := initStats } h
  intro d hd
  rcases hd with hd | hd
  · exact hmain.2 d hd
  · by_cases hct :
      (sweepGo o c iv (idRange a b)
        { token_index := I0, token_counter := 0, stats := initStats }).state.token_counter > 0
    · have he : (sweep_token_ids o c iv I0 a b).finalFlush
          = some (saveDoc (sweepGo o c iv (idRange a b)
              { token_index := I0, token_counter := 0, stats := initStats }).state.token_index) := by
        simp [sweep_token_ids, hct]
      rw [he] at hd
      have hd' := Option.some_injective _ hd.symm
      rw [hd']
      exact saveDoc_keys_sorted _ hmain.1
    · have he : (sweep_token_ids o c iv I0 a b).finalFlush = none := by
        simp [sweep_token_ids, hct]
      rw [he] at hd
      exact absurd hd (by simp)

/-- Witness for C4: a final flush of an index built out of numeric order
(loaded keys 5 then 2, then freshly resolved key 1) is persisted ascending. -/
theorem flush_sorted_ascending_witness :
    List.Sorted (fun x y : Nat => x < y)
      (([(1, { character := "a", bytes := [97] }),
         (2, { character := "y", bytes := [121] }),
         (5, { character := "x", bytes := [120] })] : TokenIndex).map Prod.fst) :=
  flush_sorted_ascending (fun _ _ => .ok [.dataFragment "a"]) (fun _ => false)
    SAVE_INTERVAL [(5, { character := "x", bytes := [120] }),
                   (2, { character := "y", bytes := [121] })] 1 1
    (by decide)
    [(1, { character := "a", bytes := [97] }),
     (2, { character := "y", bytes := [121] }),
     (5, { character := "x", bytes := [120] })]
    (Or.inr (by decide))

/-! ## C5: a final flush is performed whenever results are unsaved -/

lemma getLast?_cons_of_some {x : TokenIndex} {l : List TokenIndex} {y : TokenIndex}
    (h : l.getLast? = some y) : (x :: l).getLast? = some y := by
  cases l with
  | nil => simp at h
  | cons a as =>
    rw [List.getLast?_cons_cons]
    exact h

lemma sweepGo_last_flush (o : Nat → Nat → AttemptOutcome) (c : Nat → Bool) (iv : Nat)
    (ids : List Nat) :
    ∀ st : SweepState, (sweepGo o c iv ids st).state.token_counter = 0 →
      (sweepGo o c iv ids st).docs.getLast?
          = some (saveDoc (sweepGo o c iv ids st).state.token_index)
      ∨ ((sweepGo o c iv ids st).docs = []
          ∧ (sweepGo o c iv ids st).state.token_index = st.token_index
          ∧ st.token_counter = 0) := by
  induction ids with
  | nil => intro st h; right; exact ⟨rfl, rfl, h⟩
  | cons id rest ih =>
    intro st h
    cases hc : c id with
    | true =>
      simp only [sweepGo, hc] at h ⊢
      right; exact ⟨rfl, rfl, h⟩
    | false =>
      cases hfr : findRecord st.token_index id with
      | some v =>
        simp only [sweepGo, hc, hfr] at h ⊢
        rcases ih _ h with hl | ⟨hd, hi, hcnt⟩
        · exact Or.inl hl
        · exact Or.inr ⟨hd, hi, hcnt⟩
      | none =>
        cases hpr : (processTokenId (o id)).record with
        | some rec =>
          by_cases hint : iv ≤ st.token_counter + 1
          · simp [sweepGo, hc, hfr, hpr, hint] at h ⊢
            rcases ih _ h with hl | ⟨hd, hi, _⟩
            · exact getLast?_cons_of_some hl
            · rw [hd, hi]
              rfl
          · simp [sweepGo, hc, hfr, hpr, hint] at h ⊢
            rcases ih _ h with hl | ⟨_, _, hcnt⟩
            · exact Or.inl hl
            · exact absurd hcnt (Nat.succ_ne_zero _)
        | none =>
          by_cases hint : iv ≤ st.token_counter + 1
          · simp [sweepGo, hc, hfr, hpr, hint] at h ⊢
            rcases ih _ h with hl | ⟨hd, hi, _⟩
            · exact getLast?_cons_of_some hl
            · rw [hd, hi]
              rfl
          · simp [sweepGo, hc, hfr, hpr, hint] at h ⊢
            rcases ih _ h with hl | ⟨_, _, hcnt⟩
            · exact Or.inl hl
            · exact absurd hcnt (Nat.succ_ne_zero _)

/-- C5: on loop exit the `finally` block flushes whenever the save counter
is positive, and the flush is a full snapshot of the final index; dually,
if no final flush happened then nothing was processed since the last
periodic flush: the last flushed document already equals the full snapshot
of the final index (or nothing was processed at all and the index is still
the loaded one).  In particular, cancelling after N successful resolutions
before the save interval is reached still persists all N results. -/
theorem final_flush_on_exit (o : Nat → Nat → AttemptOutcome) (c : Nat → Bool)
    (iv : Nat) (I0 : TokenIndex) (a b : Nat) :
    ((sweep_token_ids o c iv I0 a b).final.token_counter > 0 →
      (sweep_token_ids o c iv I0 a b).finalFlush
        = some (saveDoc (sweep_token_ids o c iv I0 a b).final.token_index))
    ∧ ((sweep_token_ids o c iv I0 a b).finalFlush = none →
      (sweep_token_ids o c iv I0 a b).flushes.getLast?
          = some (saveDoc (sweep_token_ids o c iv I0 a b).final.token_index)
        ∨ ((sweep_token_ids o c iv I0 a b).flushes = []
            ∧ (sweep_token_ids o c iv I0 a b).final.token_index = I0)) := by
  constructor
  · intro hct
    have hct' : (sweepGo o c iv (idRange a b)
        { token_index := I0, token_counter := 0, stats := initStats }).state.token_counter > 0 :=
      hct
    show (if (sweepGo o c iv (idRange a b)
        { token_index := I0, token_counter := 0, stats := initStats }).state.token_counter > 0
      then some (saveDoc (sweepGo o c iv (idRange a b)
        { token_index := I0, token_counter := 0, stats := initStats }).state.token_index)
      else none) = some (saveDoc (sweep_token_ids o c iv I0 a b).final.token_index)
    rw [if_pos hct']
    rfl
  · intro hnone
    have hz : (sweepGo o c iv (idRange a b)
        { token_index := I0, token_counter := 0, stats := initStats }).state.token_counter = 0 := by
      by_contra hne
      have hgt : (sweepGo o c iv (idRange a b)
          { token_index := I0, token_counter := 0, stats := initStats }).state.token_counter > 0 :=
        Nat.pos_of_ne_zero hne
      simp [sweep_token_ids, hgt] at hnone
    rcases sweepGo_last_flush o c iv (idRange a b)
      { token_index := I0, token_counter := 0, stats := initStats } hz with hl | ⟨hd, hi, _⟩
    · exact Or.inl hl
    · exact Or.inr ⟨hd, hi⟩

/-- Witness for C5: cancellation arrives at ID 12 after two successful
resolutions, before the save interval of 100 is reached; the final flush
still persists both results. -/
theorem final_flush_on_exit_witness :
    (sweep_token_ids (fun _ _ => .ok [.dataFragment "a"]) (fun id => id == 12)
        SAVE_INTERVAL [] 10 12).finalFlush
      = some (saveDoc (sweep_token_ids (fun _ _ => .ok [.dataFragment "a"])
          (fun id => id == 12) SAVE_INTERVAL [] 10 12).final.token_index) :=
  (final_flush_on_exit (fun _ _ => .ok [.dataFragment "a"]) (fun id => id == 12)
    SAVE_INTERVAL [] 10 12).1 (by decide)

/-! ## C1: idempotent resume -/

lemma sweepGo_projections (o : Nat → Nat → AttemptOutcome) (c : Nat → Bool) (iv : Nat)
    (ids : List Nat) :
    ∀ st : SweepState,
      (sweepGo o c iv ids st).state.token_index = idxRun o c ids st.token_index
      ∧ (sweepGo o c iv ids st).resolved = resolvedRun o c ids st.token_index
      ∧ (sweepGo o c iv ids st).state.stats.skipped
          = st.stats.skipped + skipRun o c ids st.token_index := by
  induction ids with
  | nil => intro st; exact ⟨rfl, rfl, rfl⟩
  | cons id rest ih =>
    intro st
    cases hc : c id with
    | true =>
      refine ⟨?_, ?_, ?_⟩ <;> simp [sweepGo, idxRun, resolvedRun, skipRun, hc]
    | false =>
      cases hfr : findRecord st.token_index id with
      | some v =>
        have hrec := ih { st with stats := { st.stats with skipped := st.stats.skipped + 1 } }
        refine ⟨?_, ?_, ?_⟩
        · simpa [sweepGo, idxRun, hc, hfr] using hrec.1
        · simpa [sweepGo, resolvedRun, hc, hfr] using hrec.2.1
        · simp [sweepGo, skipRun, hc, hfr, hrec.2.2]
          omega
      | none =>
        cases hpr : (processTokenId (o id)).record with
        | some rec =>
          by_cases hint : iv ≤ st.token_counter + 1
          · have hrec := ih { token_index := insertRecord st.token_index id rec
                              token_counter := 0
                              stats := { st.stats with
                                successful := st.stats.successful + 1
                                total_processed := st.stats.total_processed + 1 } }
            refine ⟨?_, ?_, ?_⟩
            · simpa [sweepGo, idxRun, hc, hfr, hpr, hint] using hrec.1
            · simpa [sweepGo, resolvedRun, hc, hfr, hpr, hint] using hrec.2.1
            · simp [sweepGo, skipRun, hc, hfr, hpr, hint, hrec.2.2]
          · have hrec := ih { token_index := insertRecord st.token_index id rec
                              token_counter := st.token_counter + 1
                              stats := { st.stats with
                                successful := st.stats.successful + 1
                                total_processed := st.stats.total_processed + 1 } }
            refine ⟨?_, ?_, ?_⟩
            · simpa [sweepGo, idxRun, hc, hfr, hpr, hint] using hrec.1
            · simpa [sweepGo, resolvedRun, hc, hfr, hpr, hint] using hrec.2.1
            · simp [sweepGo, skipRun, hc, hfr, hpr, hint, hrec.2.2]
        | none =>
          by_cases hint : iv ≤ st.token_counter + 1
          · have hrec := ih { token_index := st.token_index
                              token_counter := 0
                              stats := { st.stats with
                                failed := st.stats.failed + 1
                                total_processed := st.stats.total_processed + 1 } }
            refine ⟨?_, ?_, ?_⟩
            · simpa [sweepGo, idxRun, hc, hfr, hpr, hint] using hrec.1
            · simpa [sweepGo, resolvedRun, hc, hfr, hpr, hint] using hrec.2.1
            · simp [sweepGo, skipRun, hc, hfr, hpr, hint, hrec.2.2]
          · have hrec := ih { token_index := st.token_index
                              token_counter := st.token_counter + 1
                              stats := { st.stats with
                                failed := st.stats.failed + 1
                                total_processed := st.stats.total_processed + 1 } }
            refine ⟨?_, ?_, ?_⟩
            · simpa [sweepGo, idxRun, hc, hfr, hpr, hint] using hrec.1
            · simpa [sweepGo, resolvedRun, hc, hfr, hpr, hint] using hrec.2.1
            · simp [sweepGo, skipRun, hc, hfr, hpr, hint, hrec.2.2]

lemma idxRun_mem_mono (o : Nat → Nat → AttemptOutcome) (c : Nat → Bool) (ids : List Nat) :
    ∀ (I : TokenIndex) (k : Nat), (findRecord I k).isSome = true →
      (findRecord (idxRun o c ids I) k).isSome = true := by
  induction ids with
  | nil => intro I k h; exact h
  | cons id rest ih =>
    intro I k h
    cases hc : c id with
    | true => simpa [idxRun, hc] using h
    | false =>
      cases hfr : findRecord I id with
      | some v => simpa [idxRun, hc, hfr] using ih I k h
      | none =>
        cases hpr : (processTokenId (o id)).record with
        | some rec =>
          have h' : (findRecord (insertRecord I id rec) k).isSome = true := by
            rw [findRecord_insertRecord]
            by_cases hk : k = id
            · simp [hk]
            · simpa [hk] using h
          simpa [idxRun, hc, hfr, hpr] using ih _ k h'
        | none => simpa [idxRun, hc, hfr, hpr] using ih I k h

lemma idxRun_find_not_mem (o : Nat → Nat → AttemptOutcome) (c : Nat → Bool) :
    ∀ (ids : List Nat) (i : Nat), i ∉ ids →
      ∀ I : TokenIndex, findRecord (idxRun o c ids I) i = findRecord I i := by
  intro ids
  induction ids with
  | nil => intro i _ I; rfl
  | cons id rest ih =>
    intro i hi I
    have hiid : i ≠ id := fun hh => hi (hh ▸ List.mem_cons_self id rest)
    have hirest : i ∉ rest := fun hh => hi (List.mem_cons_of_mem _ hh)
    cases hc : c id with
    | true => simp [idxRun, hc]
    | false =>
      cases hfr : findRecord I id with
      | some v => simp [idxRun, hc, hfr, ih i hirest]
      | none =>
        cases hpr : (processTokenId (o id)).record with
        | some rec =>
          simp [idxRun, hc, hfr, hpr, ih i hirest, findRecord_insertRecord, hiid]
        | none => simp [idxRun, hc, hfr, hpr, ih i hirest]

lemma idxRun_keys_nodup (o : Nat → Nat → AttemptOutcome) (c : Nat → Bool) (ids : List Nat) :
    ∀ I : TokenIndex, (I.map Prod.fst).Nodup → ((idxRun o c ids I).map Prod.fst).Nodup := by
  induction ids with
  | nil => intro I h; exact h
  | cons id rest ih =>
    intro I h
    cases hc : c id with
    | true => simpa [idxRun, hc] using h
    | false =>
      cases hfr : findRecord I id with
      | some v => simpa [idxRun, hc, hfr] using ih I h
      | none =>
        cases hpr : (processTokenId (o id)).record with
        | some rec =>
          simpa [idxRun, hc, hfr, hpr] using ih _ (keys_nodup_insertRecord _ _ _ h)
        | none => simpa [idxRun, hc, hfr, hpr] using ih I h

lemma idxRun_find_congr (o : Nat → Nat → AttemptOutcome) (c : Nat → Bool) (ids : List Nat) :
    ∀ (I J : TokenIndex), (∀ k, findRecord I k = findRecord J k) →
      ∀ k, findRecord (idxRun o c ids I) k = findRecord (idxRun o c ids J) k := by
  induction ids with
  | nil => intro I J h k; exact h k
  | cons id rest ih =>
    intro I J h k
    cases hc : c id with
    | true => simp [idxRun, hc, h k]
    | false =>
      cases hfr : findRecord I id with
      | some v =>
        have hfrJ : findRecord J id = some v := by rw [← h id]; exact hfr
        simp only [idxRun, hc]
        rw [hfr, hfrJ]
        exact ih I J h k
      | none =>
        have hfrJ : findRecord J id = none := by rw [← h id]; exact hfr
        cases hpr : (processTokenId (o id)).record with
        | some rec =>
          simp only [idxRun, hc]
          rw [hfr, hfrJ, hpr]
          refine ih _ _ ?_ k
          intro k'
          rw [findRecord_insertRecord, findRecord_insertRecord]
          by_cases hk : k' = id
          · simp [hk]
          · simp [hk, h k']
        | none =>
          simp only [idxRun, hc]
          rw [hfr, hfrJ, hpr]
          exact ih I J h k

lemma idxRun_resume (o : Nat → Nat → AttemptOutcome) (c : Nat → Bool) :
    ∀ ids : List Nat, ids.Nodup → ∀ I : TokenIndex,
      idxRun o (fun _ => false) ids (idxRun o c ids I) = idxRun o (fun _ => false) ids I := by
  intro ids
  induction ids with
  | nil => intro _ I; rfl
  | cons id rest ih =>
    intro hnd I
    obtain ⟨hid_nin, hrest_nd⟩ := List.nodup_cons.mp hnd
    cases hc : c id with
    | true => simp [idxRun, hc]
    | false =>
      cases hfr : findRecord I id with
      | some v =>
        have hmono : (findRecord (idxRun o c rest I) id).isSome = true :=
          idxRun_mem_mono o c rest I id (by simp [hfr])
        cases hfr2 : findRecord (idxRun o c rest I) id with
        | none => rw [hfr2] at hmono; simp at hmono
        | some w => simp [idxRun, hc, hfr, hfr2, ih hrest_nd]
      | none =>
        cases hpr : (processTokenId (o id)).record with
        | some rec =>
          have hmono : (findRecord (idxRun o c rest (insertRecord I id rec)) id).isSome = true :=
            idxRun_mem_mono o c rest _ id (by rw [findRecord_insertRecord]; simp)
          cases hfr2 : findRecord (idxRun o c rest (insertRecord I id rec)) id with
          | none => rw [hfr2] at hmono; simp at hmono
          | some w => simp [idxRun, hc, hfr, hpr, hfr2, ih hrest_nd]
        | none =>
          have hfr2 : findRecord (idxRun o c rest I) id = none := by
            rw [idxRun_find_not_mem o c rest id hid_nin I]
            exact hfr
          simp [idxRun, hc, hfr, hpr, hfr2, ih hrest_nd]

lemma resolvedRun_not_mem_of_present (o : Nat → Nat → AttemptOutcome) (c : Nat → Bool) :
    ∀ (ids : List Nat) (I : TokenIndex) (k : Nat),
      (findRecord I k).isSome = true → k ∉ resolvedRun o c ids I := by
  intro ids
  induction ids with
  | nil => intro I k _; simp [resolvedRun]
  | cons id rest ih =>
    intro I k h
    cases hc : c id with
    | true => simp [resolvedRun, hc]
    | false =>
      cases hfr : findRecord I id with
      | some v =>
        simp only [resolvedRun, hc]
        rw [hfr]
        exact ih I k h
      | none =>
        have hk : k ≠ id := by
          intro hh
          rw [hh, hfr] at h
          simp at h
        cases hpr : (processTokenId (o id)).record with
        | some rec =>
          simp only [resolvedRun, hc]
          rw [hfr, hpr]
          intro hmem
          rcases List.mem_cons.mp hmem with hmem | hmem
          · exact hk hmem
          · exact ih _ k (by rw [findRecord_insertRecord]; simpa [hk] using h) hmem
        | none =>
          simp only [resolvedRun, hc]
          rw [hfr, hpr]
          intro hmem
          rcases List.mem_cons.mp hmem with hmem | hmem
          · exact hk hmem
          · exact ih I k h hmem

lemma skipRun_countP (o : Nat → Nat → AttemptOutcome) :
    ∀ ids : List Nat, ids.Nodup → ∀ I : TokenIndex,
      skipRun o (fun _ => false) ids I
        = ids.countP (fun k => (findRecord I k).isSome) := by
  intro ids
  induction ids with
  | nil => intro _ I; rfl
  | cons id rest ih =>
    intro hnd I
    obtain ⟨hid_nin, hrest_nd⟩ := List.nodup_cons.mp hnd
    cases hfr : findRecord I id with
    | some v => simp [skipRun, hfr, List.countP_cons, ih hrest_nd]
    | none =>
      cases hpr : (processTokenId (o id)).record with
      | some rec =>
        have hcount : rest.countP (fun k => (findRecord (insertRecord I id rec) k).isSome)
            = rest.countP (fun k => (findRecord I k).isSome) := by
          apply List.countP_congr
          intro x hx
          have hxid : ¬ x = id := fun hh => hid_nin (hh ▸ hx)
          rw [findRecord_insertRecord]
          simp [hxid]
        simp [skipRun, hfr, hpr, List.countP_cons, ih hrest_nd, hcount]
      | none => simp [skipRun, hfr, hpr, List.countP_cons, ih hrest_nd]

lemma mem_iff_findRecord : ∀ l : TokenIndex, (l.map Prod.fst).Nodup →
    ∀ (k : Nat) (v : TokenRecord), (k, v) ∈ l ↔ findRecord l k = some v := by
  intro l
  induction l with
  | nil => intro _ k v; simp [findRecord]
  | cons p rest ih =>
    obtain ⟨a, b⟩ := p
    intro hnd k v
    simp only [List.map_cons, List.nodup_cons] at hnd
    obtain ⟨ha_nin, hrest⟩ := hnd
    constructor
    · intro hm
      rcases List.mem_cons.mp hm with hm | hm
      · rw [Prod.mk.injEq] at hm
        obtain ⟨h1, h2⟩ := hm
        subst h1; subst h2
        simp [findRecord]
      · have hk : ¬ a = k := by
          intro hh
          subst hh
          exact ha_nin (by simpa using List.mem_map_of_mem Prod.fst hm)
        simp only [findRecord, if_neg hk]
        exact (ih hrest k v).mp hm
    · intro hf
      by_cases hk : a = k
      · subst hk
        simp only [findRecord, if_pos rfl] at hf
        have hbv : b = v := Option.some_injective _ hf
        rw [← hbv]
        exact List.mem_cons_self _ _
      · simp only [findRecord, if_neg hk] at hf
        exact List.mem_cons_of_mem _ ((ih hrest k v).mpr hf)

lemma perm_of_findRecord_eq (l1 l2 : TokenIndex)
    (h1 : (l1.map Prod.fst).Nodup) (h2 : (l2.map Prod.fst).Nodup)
    (hf : ∀ k, findRecord l1 k = findRecord l2 k) : l1.Perm l2 := by
  have hn1 : l1.Nodup := List.Nodup.of_map _ h1
  have hn2 : l2.Nodup := List.Nodup.of_map _ h2
  have hmem : ∀ p : Nat × TokenRecord, p ∈ l1 ↔ p ∈ l2 := by
    intro p
    obtain ⟨k, v⟩ := p
    rw [mem_iff_findRecord l1 h1 k v, mem_iff_findRecord l2 h2 k v, hf k]
  exact (List.perm_ext_iff_of_nodup hn1 hn2).mpr hmem

lemma saveDoc_keys_nodup (l : TokenIndex) (h : (l.map Prod.fst).Nodup) :
    ((saveDoc l).map Prod.fst).Nodup :=
  (((List.perm_insertionSort keyLE l).map Prod.fst).nodup_iff).mpr h

lemma findRecord_saveDoc (l : TokenIndex) (h : (l.map Prod.fst).Nodup) (k : Nat) :
    findRecord (saveDoc l) k = findRecord l k := by
  have hperm : (saveDoc l).Perm l := List.perm_insertionSort keyLE l
  have hkeys := saveDoc_keys_nodup l h
  cases hfl : findRecord l k with
  | some v =>
    exact (mem_iff_findRecord (saveDoc l) hkeys k v).mp
      (hperm.mem_iff.mpr ((mem_iff_findRecord l h k v).mpr hfl))
  | none =>
    cases hfs : findRecord (saveDoc l) k with
    | none => rfl
    | some w =>
      have hw : (k, w) ∈ l :=
        hperm.mem_iff.mp ((mem_iff_findRecord (saveDoc l) hkeys k w).mpr hfs)
      have := (mem_iff_findRecord l h k w).mp hw
      rw [hfl] at this
      exact absurd this (by simp)

lemma saveDoc_sorted_lt (l : TokenIndex) (h : (l.map Prod.fst).Nodup) :
    List.Sorted keyLT (saveDoc l) := by
  have hs : List.Pairwise keyLE (saveDoc l) := List.sorted_insertionSort keyLE l
  have hne : List.Pairwise (fun p q : Nat × TokenRecord => p.1 ≠ q.1) (saveDoc l) :=
    List.pairwise_map.mp (saveDoc_keys_nodup l h)
  exact (hs.and hne).imp fun hab => lt_of_le_of_ne hab.1 hab.2

lemma saveDoc_eq_of_findRecord_eq (l1 l2 : TokenIndex)
    (h1 : (l1.map Prod.fst).Nodup) (h2 : (l2.map Prod.fst).Nodup)
    (hf : ∀ k, findRecord l1 k = findRecord l2 k) : saveDoc l1 = saveDoc l2 := by
  have hperm : (saveDoc l1).Perm (saveDoc l2) :=
    (List.perm_insertionSort keyLE l1).trans
      ((perm_of_findRecord_eq l1 l2 h1 h2 hf).trans (List.perm_insertionSort keyLE l2).symm)
  exact List.eq_of_perm_of_sorted hperm (saveDoc_sorted_lt l1 h1) (saveDoc_sorted_lt l2 h2)

/-- C1: re-running a sweep over the same range against the checkpoint left
by a previous (possibly cancelled) run yields a TokenIndex identical to one
uninterrupted run — identical as a mapping, and identical as the persisted
sorted document — while every ID already present in the loaded checkpoint
is counted as skipped and never passed to `_process_token_id` (zero
resolution attempts, hence no request issued). -/
theorem sweep_resume_idempotent (o : Nat → Nat → AttemptOutcome) (c : Nat → Bool)
    (I0 : TokenIndex) (a b : Nat) (h0 : (I0.map Prod.fst).Nodup) :
    (∀ k, findRecord (sweep_token_ids o (fun _ => false) SAVE_INTERVAL
          (saveDoc (sweep_token_ids o c SAVE_INTERVAL I0 a b).final.token_index)
          a b).final.token_index k
        = findRecord (sweep_token_ids o (fun _ => false) SAVE_INTERVAL
            I0 a b).final.token_index k)
    ∧ saveDoc (sweep_token_ids o (fun _ => false) SAVE_INTERVAL
          (saveDoc (sweep_token_ids o c SAVE_INTERVAL I0 a b).final.token_index)
          a b).final.token_index
      = saveDoc (sweep_token_ids o (fun _ => false) SAVE_INTERVAL I0 a b).final.token_index
    ∧ (∀ k, (findRecord (saveDoc (sweep_token_ids o c SAVE_INTERVAL
          I0 a b).final.token_index) k).isSome = true →
        k ∉ (sweep_token_ids o (fun _ => false) SAVE_INTERVAL
          (saveDoc (sweep_token_ids o c SAVE_INTERVAL I0 a b).final.token_index)
          a b).resolved)
    ∧ (sweep_token_ids o (fun _ => false) SAVE_INTERVAL
          (saveDoc (sweep_token_ids o c SAVE_INTERVAL I0 a b).final.token_index)
          a b).final.stats.skipped
      = (idRange a b).countP (fun k =>
          (findRecord (saveDoc (sweep_token_ids o c SAVE_INTERVAL
            I0 a b).final.token_index) k).isSome) := by
  have hrange_nd : (idRange a b).Nodup := List.nodup_range' _ _
  have h1 : (sweep_token_ids o c SAVE_INTERVAL I0 a b).final.token_index
      = idxRun o c (idRange a b) I0 :=
    (sweepGo_projections o c SAVE_INTERVAL (idRange a b)
      { token_index := I0, token_counter := 0, stats := initStats }).1
  have hXnd : ((idxRun o c (idRange a b) I0).map Prod.fst).Nodup :=
    idxRun_keys_nodup o c (idRange a b) I0 h0
  have hck_eq : ∀ k,
      findRecord (saveDoc (sweep_token_ids o c SAVE_INTERVAL I0 a b).final.token_index) k
        = findRecord (idxRun o c (idRange a b) I0) k := by
    intro k
    rw [h1]
    exact findRecord_saveDoc _ hXnd k
  have hcknd : ((saveDoc (sweep_token_ids o c SAVE_INTERVAL
      I0 a b).final.token_index).map Prod.fst).Nodup := by
    rw [h1]
    exact saveDoc_keys_nodup _ hXnd
  have h2 : (sweep_token_ids o (fun _ => false) SAVE_INTERVAL
        (saveDoc (sweep_token_ids o c SAVE_INTERVAL I0 a b).final.token_index)
        a b).final.token_index
      = idxRun o (fun _ => false) (idRange a b)
          (saveDoc (sweep_token_ids o c SAVE_INTERVAL I0 a b).final.token_index) :=
    (sweepGo_projections o (fun _ => false) SAVE_INTERVAL (idRange a b)
      { token_index := saveDoc (sweep_token_ids o c SAVE_INTERVAL I0 a b).final.token_index
        token_counter := 0, stats := initStats }).1
  have h3 : (sweep_token_ids o (fun _ => false) SAVE_INTERVAL I0 a b).final.token_index
      = idxRun o (fun _ => false) (idRange a b) I0 :=
    (sweepGo_projections o (fun _ => false) SAVE_INTERVAL (idRange a b)
      { token_index := I0, token_counter := 0, stats := initStats }).1
  have hfind : ∀ k, findRecord (sweep_token_ids o (fun _ => false) SAVE_INTERVAL
        (saveDoc (sweep_token_ids o c SAVE_INTERVAL I0 a b).final.token_index)
        a b).final.token_index k
      = findRecord (sweep_token_ids o (fun _ => false) SAVE_INTERVAL
          I0 a b).final.token_index k := by
    intro k
    rw [h2, h3]
    have e1 := idxRun_find_congr o (fun _ => false) (idRange a b)
      (saveDoc (sweep_token_ids o c SAVE_INTERVAL I0 a b).final.token_index)
      (idxRun o c (idRange a b) I0) hck_eq k
    rw [e1, idxRun_resume o c (idRange a b) hrange_nd I0]
  refine ⟨hfind, ?_, ?_, ?_⟩
  · have hnd2 : ((sweep_token_ids o (fun _ => false) SAVE_INTERVAL
        (saveDoc (sweep_token_ids o c SAVE_INTERVAL I0 a b).final.token_index)
        a b).final.token_index.map Prod.fst).Nodup := by
      rw [h2]
      exact idxRun_keys_nodup _ _ _ _ hcknd
    have hnd3 : ((sweep_token_ids o (fun _ => false) SAVE_INTERVAL
        I0 a b).final.token_index.map Prod.fst).Nodup := by
      rw [h3]
      exact idxRun_keys_nodup _ _ _ _ h0
    exact saveDoc_eq_of_findRecord_eq _ _ hnd2 hnd3 hfind
  · intro k hk
    have hres : (sweep_token_ids o (fun _ => false) SAVE_INTERVAL
          (saveDoc (sweep_token_ids o c SAVE_INTERVAL I0 a b).final.token_index)
          a b).resolved
        = resolvedRun o (fun _ => false) (idRange a b)
            (saveDoc (sweep_token_ids o c SAVE_INTERVAL I0 a b).final.token_index) :=
      (sweepGo_projections o (fun _ => false) SAVE_INTERVAL (idRange a b)
        { token_index := saveDoc (sweep_token_ids o c SAVE_INTERVAL I0 a b).final.token_index
          token_counter := 0, stats := initStats }).2.1
    rw [hres]
    exact resolvedRun_not_mem_of_present o _ (idRange a b) _ k hk
  · have hskip : (sweep_token_ids o (fun _ => false) SAVE_INTERVAL
          (saveDoc (sweep_token_ids o c SAVE_INTERVAL I0 a b).final.token_index)
          a b).final.stats.skipped
        = initStats.skipped + skipRun o (fun _ => false) (idRange a b)
            (saveDoc (sweep_token_ids o c SAVE_INTERVAL I0 a b).final.token_index) :=
      (sweepGo_projections o (fun _ => false) SAVE_INTERVAL (idRange a b)
        { token_index := saveDoc (sweep_token_ids o c SAVE_INTERVAL I0 a b).final.token_index
          token_counter := 0, stats := initStats }).2.2
    rw [hskip, skipRun_countP o (idRange a b) hrange_nd]
    simp [initStats]

/-- Witness for C1: resuming a run that was cancelled at ID 11 reproduces,
for ID 10, exactly what one uninterrupted run stores. -/
theorem sweep_resume_idempotent_witness :
    findRecord (sweep_token_ids (fun _ _ => .ok [.dataFragment "a"]) (fun _ => false)
        SAVE_INTERVAL
        (saveDoc (sweep_token_ids (fun _ _ => .ok [.dataFragment "a"]) (fun id => id == 11)
          SAVE_INTERVAL [] 10 12).final.token_index) 10 12).final.token_index 10
      = findRecord (sweep_token_ids (fun _ _ => .ok [.dataFragment "a"]) (fun _ => false)
          SAVE_INTERVAL [] 10 12).final.token_index 10 :=
  (sweep_resume_idempotent (fun _ _ => .ok [.dataFragment "a"]) (fun id => id == 11)
    [] 10 12 (by decide)).1 10
